import Mathlib

/-!
Verification of the i3hub IPC multiplexing and event-dispatch engine
(`i3hub.py`) against its natural-language specification.

Python strings are modelled as `List Char`, bytes as `List Nat` (each
element < 256), dicts as association lists in insertion order, and the
cooperative asyncio concurrency of `I3Connection._send` as a small-step
transition system driven by an adversarial scheduler.
-/

namespace I3HubModel

/-! ## Python string splitting: `event.split('::', maxsplit=1)` -/

/-- Model of Python `s.split('::', maxsplit=1)` restricted to the two
outcomes the code distinguishes: `none` when `'::'` does not occur in `s`
(Python returns a one-element list) and `some (before, after)` splitting at
the first occurrence (Python returns a two-element list). -/
def splitOnce : List Char → Option (List Char × List Char)
  | [] => none
  | a :: rest =>
    match rest with
    | [] => none
    | b :: rest2 =>
      if a = ':' ∧ b = ':' then some ([], rest2)
      else (splitOnce rest).map fun p => (a :: p.1, p.2)

/-! ## Fixed message and event catalogs (`MESSAGES`, `I3_EVENTS`, `HUB_EVENTS`) -/

/-- The ordinal-indexed message catalog: name and whether the generated
method takes a payload argument. -/
def MESSAGES : List (List Char × Bool) :=
  [("command".data, true), ("get_workspaces".data, false), ("subscribe".data, true),
   ("get_outputs".data, false), ("get_tree".data, false), ("get_marks".data, false),
   ("get_bar_config".data, true), ("get_version".data, false),
   ("get_binding_modes".data, false), ("get_config".data, false), ("send_tick".data, true)]

/-- The ordinal-indexed i3 event catalog. -/
def I3_EVENTS : List (List Char) :=
  ["workspace".data, "output".data, "mode".data, "window".data,
   "barconfig_update".data, "binding".data, "shutdown".data, "tick".data]

/-- The i3hub lifecycle event catalog. -/
def HUB_EVENTS : List (List Char) :=
  ["init".data, "i3bar_click".data, "i3bar_refresh".data,
   "i3bar_suspend".data, "i3bar_resume".data]

/-- The three admissible event namespaces checked by `listen`. -/
def nsCatalog : List (List Char) := ["i3".data, "i3hub".data, "extension".data]

/-! ## The `listen` decorator (event-name validation) -/

inductive ListenError where
  | invalidName
  | invalidNamespace
  | invalidI3Event
  | invalidHubEvent
  | notCoroutine
  deriving DecidableEq

/-- Model of the `listen(event)` decorator applied to a function:
validates the event name exactly as the Python code does, then rejects the
decorated function unless it is a coroutine function.  `Except.ok ()` is a
successful registration. -/
def listen (event : List Char) (isCoroutineFunction : Bool) : Except ListenError Unit :=
  match splitOnce event with
  | none => Except.error ListenError.invalidName
  | some (ns, ev) =>
    if ns ∉ nsCatalog then Except.error ListenError.invalidNamespace
    else if ns = "i3".data ∧ ev ∉ I3_EVENTS then Except.error ListenError.invalidI3Event
    else if ns = "i3hub".data ∧ ev ∉ HUB_EVENTS then Except.error ListenError.invalidHubEvent
    else if isCoroutineFunction = false then Except.error ListenError.notCoroutine
    else Except.ok ()

/-! ## Frame codec (`I3Connection._send_now`, `I3Connection._recv`)

Bytes are modelled as `List Nat`.  `struct.pack('=II', ...)` on x86 packs
two unsigned 32-bit little-endian words; `le32`/`unle32` model one word. -/

/-- `I3Connection.MAGIC = b'i3-ipc'`. -/
def MAGIC : List Nat := [105, 51, 45, 105, 112, 99]

/-- Little-endian packing of one unsigned 32-bit word. -/
def le32 (n : Nat) : List Nat :=
  [n % 256, n / 256 % 256, n / 65536 % 256, n / 16777216 % 256]

/-- Little-endian unpacking of one unsigned 32-bit word. -/
def unle32 : List Nat → Nat
  | [b0, b1, b2, b3] => b0 + 256 * b1 + 65536 * b2 + 16777216 * b3
  | _ => 0

/-- `struct.calcsize('=6sII') = 14`. -/
def HEADER_SIZE : Nat := 14

/-- The 32-bit type word carried in a frame: the type index with the
is-event flag in bit 31 (`msg_type | 0x80000000` for events, as built by
the peer; requests are sent with the flag clear). -/
def packType (msg_type : Nat) (is_event : Bool) : Nat :=
  if is_event then msg_type ||| 2 ^ 31 else msg_type

/-- Frame encoder: `MAGIC + struct.pack('=II', len(body), type_word) + body`
exactly as assembled in `I3Connection._send_now`. -/
def encodeFrame (msg_type : Nat) (is_event : Bool) (body : List Nat) : List Nat :=
  MAGIC ++ (le32 body.length ++ (le32 (packType msg_type is_event) ++ body))

/-- Frame decoder, translated from `I3Connection._recv`: read
`HEADER_SIZE` bytes (truncation means EOF, modelled as `none`), unpack the
header, take `is_event` from bit 31 of the type word, mask the type word
with `0x7fffffff`, then read exactly the announced body.  Note that, like
the source, the decoder never inspects the 6 magic bytes. -/
def decodeFrame (data : List Nat) : Option (Nat × Bool × List Nat) :=
  if data.length < HEADER_SIZE then none
  else if (data.drop HEADER_SIZE).length < unle32 ((data.drop 6).take 4) then none
  else some (unle32 ((data.drop 10).take 4) &&& (2 ^ 31 - 1),
             (unle32 ((data.drop 10).take 4) &&& 2 ^ 31) != 0,
             (data.drop HEADER_SIZE).take (unle32 ((data.drop 6).take 4)))

/-- The body-side pipeline of `_recv`: decode the frame, then parse the
body with the (abstract) JSON loader. -/
def decodeMessage {P : Type} (loads : List Nat → Option P) (data : List Nat) :
    Option (Nat × Bool × P) :=
  (decodeFrame data).bind fun r => (loads r.2.2).map fun p => (r.1, r.2.1, p)

/-- The payload-side pipeline of `_send_now`: serialize the payload with
the (abstract) JSON dumper, then frame it. -/
def encodeMessage {P : Type} (dumps : P → List Nat) (t : Nat) (ev : Bool) (p : P) :
    List Nat :=
  encodeFrame t ev (dumps p)

/-! ## Python dicts and `status_array_merge`

A status item is a Python dict, modelled as an association list in
insertion order with unique keys (`V` is the type of values).  `none`
models the `KeyError` raised by `obj['name']` on a dict with no
`'name'` key. -/

variable {V : Type} [DecidableEq V]

/-- `d[k]`, as an `Option`. -/
def dictLookup (d : List (String × V)) (k : String) : Option V :=
  match d with
  | [] => none
  | (k1, v1) :: rest => if k1 = k then some v1 else dictLookup rest k

/-- `d[k] = v`: overwrite the existing key in place, else append. -/
def dictSet (d : List (String × V)) (k : String) (v : V) : List (String × V) :=
  match d with
  | [] => [(k, v)]
  | (k1, v1) :: rest => if k1 = k then (k, v) :: rest else (k1, v1) :: dictSet rest k v

/-- `d.update(item)`: assign every entry of `item` into `d`, in order. -/
def dictUpdate (d item : List (String × V)) : List (String × V) :=
  item.foldl (fun acc kv => dictSet acc kv.1 kv.2) d

/-- `list(d.keys())`. -/
def dictKeys (d : List (String × V)) : List String :=
  d.map Prod.fst

/-- The scanning loop of `status_array_merge`: walk the array looking for
the first element whose `'name'` equals `nm`; overwrite it in place with
`obj.update(item)` and stop.  Returns the transformed array and the
`updated` flag; `none` is the `KeyError` on an element with no name. -/
def mergeScan (arr : List (List (String × V))) (item : List (String × V)) (nm : V) :
    Option (List (List (String × V)) × Bool) :=
  match arr with
  | [] => some ([], false)
  | obj :: rest =>
    match dictLookup obj "name" with
    | none => none
    | some n =>
      if n = nm then some (dictUpdate obj item :: rest, true)
      else (mergeScan rest item nm).map fun p => (obj :: p.1, p.2)

/-- `status_array_merge(status_array, item)`: scan for `item['name']`;
if no element was updated, insert `item` at index 0. -/
def status_array_merge (status_array : List (List (String × V))) (item : List (String × V)) :
    Option (List (List (String × V))) :=
  match dictLookup item "name" with
  | none => none
  | some nm =>
    (mergeScan status_array item nm).map fun p => if p.2 then p.1 else item :: p.1

/-! ## The `I3Connection._send` protocol

`_send` under asyncio's cooperative scheduler, as a small-step transition
system.  Each caller of `_send` is a task progressing through the phases
of the coroutine body; the scheduler (and the peer's reply) choose steps
adversarially.  `slot` is `self._reply` (`none` when cleared,
`some (t, false)` while task `t` awaits its pending reply future,
`some (t, true)` once `_poll` has resolved it but `t` has not yet
resumed); `sendQueue` is `self._send_queue` (task ids standing for their
futures); `wire` holds requests written but not yet answered by the peer.
The four trace fields record, in order: enqueues into the send queue,
wake-ups by `popleft().set_result(None)`, frames accepted for send by
`_send_now`, and reply deliveries to callers. -/

inductive TaskPhase where
  | notStarted
  | running
  | queued
  | awaitingReply
  | done
  deriving DecidableEq

structure ConnState where
  slot : Option (Nat × Bool)
  sendQueue : List Nat
  tasks : Nat → TaskPhase
  wire : List Nat
  enqueueTrace : List Nat
  wakeTrace : List Nat
  sendTrace : List Nat
  deliverTrace : List Nat

def initConn : ConnState :=
  { slot := none, sendQueue := [], tasks := fun _ => TaskPhase.notStarted, wire := [],
    enqueueTrace := [], wakeTrace := [], sendTrace := [], deliverTrace := [] }

/-- One scheduler step of the `_send`/`_poll` machinery:
`start` — a new caller enters `_send` (top of the `while self._reply` loop);
`enqueue` — the loop guard sees a pending reply, so the caller appends a
future to `_send_queue` and suspends on it;
`send` — the loop guard sees no pending reply, so the caller writes its
frame via `_send_now` and installs `self._reply`, suspending on it;
`reply` — `_poll` reads the peer's reply and resolves `self._reply`;
`finish` — the sender resumes from `await self._reply`, clears the slot,
and wakes the head waiter of `_send_queue` (if any) back to the loop top. -/
inductive ConnStep : ConnState → ConnState → Prop where
  | start (s : ConnState) (t : Nat) (h : s.tasks t = TaskPhase.notStarted) :
      ConnStep s { s with tasks := Function.update s.tasks t TaskPhase.running }
  | enqueue (s : ConnState) (t : Nat) (h : s.tasks t = TaskPhase.running)
      (hs : s.slot ≠ none) :
      ConnStep s { s with tasks := Function.update s.tasks t TaskPhase.queued,
                          sendQueue := s.sendQueue ++ [t],
                          enqueueTrace := s.enqueueTrace ++ [t] }
  | send (s : ConnState) (t : Nat) (h : s.tasks t = TaskPhase.running)
      (hs : s.slot = none) :
      ConnStep s { s with tasks := Function.update s.tasks t TaskPhase.awaitingReply,
                          slot := some (t, false),
                          wire := s.wire ++ [t],
                          sendTrace := s.sendTrace ++ [t] }
  | reply (s : ConnState) (t : Nat) (h : s.slot = some (t, false)) :
      ConnStep s { s with slot := some (t, true), wire := s.wire.drop 1 }
  | finish (s : ConnState) (t : Nat) (h : s.slot = some (t, true))
      (h2 : s.tasks t = TaskPhase.awaitingReply) :
      ConnStep s { s with
        slot := none,
        tasks := match s.sendQueue with
          | [] => Function.update s.tasks t TaskPhase.done
          | w :: _ => Function.update (Function.update s.tasks t TaskPhase.done) w
              TaskPhase.running,
        sendQueue := s.sendQueue.drop 1,
        wakeTrace := s.wakeTrace ++ s.sendQueue.take 1,
        deliverTrace := s.deliverTrace ++ [t] }

inductive ConnReachable : ConnState → Prop where
  | init : ConnReachable initConn
  | step {s s2 : ConnState} : ConnReachable s → ConnStep s s2 → ConnReachable s2

/-- The caller currently owning the reply slot, as a (≤ 1 element) list. -/
def slotTask : Option (Nat × Bool) → List Nat
  | none => []
  | some (t, _) => [t]

/-- The requests on the wire implied by the slot: exactly one while a
request has been written and its reply not yet received. -/
def slotWire : Option (Nat × Bool) → List Nat
  | none => []
  | some (t, b) => if b then [] else [t]

def ConnInv (s : ConnState) : Prop :=
  s.wire = slotWire s.slot ∧
  s.enqueueTrace = s.wakeTrace ++ s.sendQueue ∧
  s.sendTrace = s.deliverTrace ++ slotTask s.slot

/-! ## Hub shutdown lifecycle (`I3Hub._dispatch_shutdown`, `I3Hub.close`)

The shutdown-relevant state of one `I3Hub`: `shuttingDown` is
`self._i3api._shutting_down`, `closed` is `self._closed`,
`shutdownDispatches` records the argument of every `i3::shutdown`
lifecycle dispatch actually performed, and `closeEffects` counts how many
times `close()` actually tore the connection down. -/

structure HubState where
  shuttingDown : Bool
  closed : Bool
  shutdownDispatches : List (List Char)
  closeEffects : Nat
  deriving DecidableEq

def initHub : HubState :=
  { shuttingDown := false, closed := false, shutdownDispatches := [], closeEffects := 0 }

/-- `I3Hub._dispatch_shutdown(arg)`: dispatch `i3::shutdown` only if the
API was not already marked shutting down. -/
def hubDispatchShutdown (s : HubState) (arg : List Char) : HubState :=
  if s.shuttingDown then s
  else { s with shuttingDown := true,
                shutdownDispatches := s.shutdownDispatches ++ [arg] }

/-- `I3Hub.close()`: a no-op once `_closed` is set. -/
def closeHub (s : HubState) : HubState :=
  if s.closed then s
  else { s with closed := true, closeEffects := s.closeEffects + 1 }

/-- One iteration of `_dispatch_i3_events` for event `(event, payload)`:
on `shutdown` or `eof`, `_dispatch_shutdown(payload or 'eof')` then
`close()`.  `payload` is `none` for the synthetic `eof` event (Python
falsiness of non-`None` payloads is irrelevant here: the `eof` event
always carries `None`). -/
def handleHubEvent (s : HubState) (event : List Char) (payload : Option (List Char)) :
    HubState :=
  if event = "shutdown".data ∨ event = "eof".data then
    closeHub (hubDispatchShutdown s (payload.getD ("eof".data)))
  else s

/-- The externally triggerable shutdown-relevant operations: an event
arriving from the connection, an explicit `close()` (e.g. from the
SIGINT/SIGTERM handlers), and `run()`'s trailing
`_dispatch_shutdown('close')`. -/
inductive HubOp where
  | recvEvent (event : List Char) (payload : Option (List Char))
  | closeOp
  | finalShutdown

def applyHubOp (s : HubState) : HubOp → HubState
  | HubOp.recvEvent e p => handleHubEvent s e p
  | HubOp.closeOp => closeHub s
  | HubOp.finalShutdown => hubDispatchShutdown s ("close".data)

/-! ## Event dispatch to handlers (`I3Hub._dispatch_event`)

A registered handler invocation is modelled by its outcome: `none` if the
coroutine returns, `some e` if it raises `e`.  `_dispatch_event` awaits
the handlers one after the other inside a single task, so an exception
propagates immediately.  The result is the number of handlers actually
invoked (a prefix, in registration order) and the escaping exception. -/

def dispatch_event {E : Type} : List (Option E) → Nat × Option E
  | [] => (0, none)
  | h :: rest =>
    match h with
    | some e => (1, some e)
    | none => ((dispatch_event rest).1 + 1, (dispatch_event rest).2)

/-! ## Extension registration and `I3Hub.run` (`_setup_events`, `run`)

One registration unit (a module or class extension instance handed to
`discover_event_handlers`): its name, whether it is marked
`_I3HUB_STATUS_EXTENSION`, and its handlers, each carrying the list of
event names it listens to (`_i3hub_listen_to`). -/

structure Extension where
  name : List Char
  statusOnly : Bool
  handlers : List (List (List Char))
  deriving DecidableEq

structure RegState where
  registered : List (List Char)
  regs : List Extension
  subscribedI3 : List (List Char)
  deriving DecidableEq

/-- `set.add`, on a duplicate-free list. -/
def setInsert (s : List (List Char)) (x : List Char) : List (List Char) :=
  if x ∈ s then s else s ++ [x]

/-- The inner loop of `discover_event_handlers`: for each event a handler
listens to, split off the namespace and collect the event into
`subscribed_i3_events` when the namespace is `i3`.  (Handler-registered
names always contain `::`; a name without it would make the Python
unpacking raise, modelled as a skip.) -/
def addHandlerEvents (s : List (List Char)) (events : List (List Char)) : List (List Char) :=
  events.foldl
    (fun acc e =>
      match splitOnce e with
      | some (ns, ev) => if ns = "i3".data then setInsert acc ev else acc
      | none => acc) s

/-- `discover_event_handlers` for one registration unit: skip
status-only extensions when not running as status command, skip duplicate
names, otherwise register the extension and collect its i3 events. -/
def registerExtension (runAsStatus : Bool) (st : RegState) (ext : Extension) : RegState :=
  if ext.statusOnly ∧ runAsStatus = false then st
  else if ext.name ∈ st.registered then st
  else { registered := st.registered ++ [ext.name],
         regs := st.regs ++ [ext],
         subscribedI3 := ext.handlers.foldl addHandlerEvents st.subscribedI3 }

/-- `_setup_events` up to its final `subscribe` call. -/
def setupEvents (runAsStatus : Bool) (exts : List Extension) : RegState :=
  exts.foldl (registerExtension runAsStatus)
    { registered := [], regs := [], subscribedI3 := [] }

/-- The externally observable actions of `I3Hub.run`, in program order. -/
inductive RunAction where
  | subscribeCall (events : List (List Char))
  | statusHeader
  | initDispatch
  | startPolling
  deriving DecidableEq

def isSubscribeAction : RunAction → Bool
  | RunAction.subscribeCall _ => true
  | _ => false

/-- The action trace of `I3Hub.run` on a hub that is not closed:
`_setup_events` (ending in exactly one `subscribe`), then — when running
as status command — the i3bar header writing awaited via `status_ready`,
then `_dispatch_init_event`, then the `_dispatch_i3_events` polling task. -/
def runTrace (runAsStatus : Bool) (exts : List Extension) : List RunAction :=
  RunAction.subscribeCall (setupEvents runAsStatus exts).subscribedI3 ::
    ((if runAsStatus then [RunAction.statusHeader] else []) ++
      [RunAction.initDispatch, RunAction.startPolling])

/-- `I3Hub.run`: raises when the hub was already closed. -/
def runHub (closed : Bool) (runAsStatus : Bool) (exts : List Extension) :
    Except (List Char) (List RunAction) :=
  if closed then Except.error ("This I3Hub instance was already closed".data)
  else Except.ok (runTrace runAsStatus exts)

/-- One API-wrapper method call (`I3ApiWrapperMeta`'s generated wrapper):
raise when `_shutting_down`, else forward to the connection method. -/
inductive WrapperResult where
  | raised (msg : List Char)
  | forwarded (method : List Char)
  deriving DecidableEq

def wrapperCall (shuttingDown : Bool) (method : List Char) : WrapperResult :=
  if shuttingDown then WrapperResult.raised ("Cannot send messages when shutting down".data)
  else WrapperResult.forwarded method

/-- The methods the wrapper exposes: every catalog message except
`subscribe`. -/
def wrapperMethodNames : List (List Char) :=
  (MESSAGES.map Prod.fst).filter (fun n => n != "subscribe".data)

/-! ## Theorems -/

theorem splitOnce_nil : splitOnce [] = none := rfl

theorem splitOnce_colon (t : List Char) : splitOnce (':' :: ':' :: t) = some ([], t) := by
  simp [splitOnce]

theorem splitOnce_cons (a b : Char) (t : List Char) (h : ¬(a = ':' ∧ b = ':')) :
    splitOnce (a :: b :: t) = (splitOnce (b :: t)).map fun p => (a :: p.1, p.2) := by
  simp [splitOnce, h]

/-- If splitting succeeds, the input is the two parts joined by `"::"`. -/
theorem splitOnce_sound :
    ∀ (s l r : List Char), splitOnce s = some (l, r) → s = l ++ ':' :: ':' :: r := by
  intro s
  induction s with
  | nil => intro l r h; simp [splitOnce] at h
  | cons a rest ih =>
    intro l r h
    cases rest with
    | nil => simp [splitOnce] at h
    | cons b rest2 =>
      by_cases hab : a = ':' ∧ b = ':'
      · rw [hab.1, hab.2, splitOnce_colon] at h
        simp only [Option.some.injEq, Prod.mk.injEq] at h
        obtain ⟨h1, h2⟩ := h
        subst h1; subst h2
        simp [hab.1, hab.2]
      · rw [splitOnce_cons a b rest2 hab] at h
        obtain ⟨⟨l1, r1⟩, hs, heq⟩ := Option.map_eq_some'.mp h
        simp only [Prod.mk.injEq] at heq
        obtain ⟨h1, h2⟩ := heq
        subst h1; subst h2
        have := ih l1 r1 hs
        rw [this]
        simp

/-- Splitting a string of the shape `ns ++ "::" ++ ev` with no colon in `ns`
finds exactly that decomposition. -/
theorem splitOnce_append (ns ev : List Char) (h : ':' ∉ ns) :
    splitOnce (ns ++ ':' :: ':' :: ev) = some (ns, ev) := by
  induction ns with
  | nil => simp [splitOnce_colon]
  | cons a t ih =>
    have ha : a ≠ ':' := fun hh => h (hh ▸ List.mem_cons_self a t)
    have ht : ':' ∉ t := fun hh => h (List.mem_cons_of_mem a hh)
    cases t with
    | nil =>
      rw [List.nil_append] at ih
      show splitOnce (a :: (':' :: ':' :: ev)) = some ([a], ev)
      rw [splitOnce_cons a ':' (':' :: ev) (fun hc => ha hc.1), splitOnce_colon]
      rfl
    | cons b t2 =>
      show splitOnce (a :: ((b :: t2) ++ ':' :: ':' :: ev)) = some (a :: b :: t2, ev)
      rw [List.cons_append, splitOnce_cons a b (t2 ++ ':' :: ':' :: ev) (fun hc => ha hc.1)]
      rw [← List.cons_append, ih ht]
      rfl

/-- Claim C10: registration through the `listen` decorator succeeds exactly
when the event name has the form `namespace::event` with the namespace one
of `i3`, `i3hub`, `extension`, the event is in the fixed catalog whenever
the namespace is `i3` or `i3hub`, and the decorated function is a
coroutine function; every other input raises. -/
theorem listen_registration_validates (event : List Char) (isCoro : Bool) :
    listen event isCoro = Except.ok () ↔
      (isCoro = true ∧ ∃ ns ev, event = ns ++ ':' :: ':' :: ev ∧ ns ∈ nsCatalog ∧
        (ns = "i3".data → ev ∈ I3_EVENTS) ∧ (ns = "i3hub".data → ev ∈ HUB_EVENTS)) := by
  constructor
  · intro h
    unfold listen at h
    cases hsp : splitOnce event with
    | none => rw [hsp] at h; exact absurd h (by simp)
    | some p =>
      obtain ⟨ns, ev⟩ := p
      rw [hsp] at h
      dsimp only at h
      by_cases h1 : ns ∉ nsCatalog
      · rw [if_pos h1] at h; exact absurd h (by simp)
      · rw [if_neg h1] at h
        by_cases h2 : ns = "i3".data ∧ ev ∉ I3_EVENTS
        · rw [if_pos h2] at h; exact absurd h (by simp)
        · rw [if_neg h2] at h
          by_cases h3 : ns = "i3hub".data ∧ ev ∉ HUB_EVENTS
          · rw [if_pos h3] at h; exact absurd h (by simp)
          · rw [if_neg h3] at h
            by_cases h4 : isCoro = false
            · rw [if_pos h4] at h; exact absurd h (by simp)
            · refine ⟨by revert h4; cases isCoro <;> simp, ns, ev, splitOnce_sound event ns ev hsp, not_not.mp h1, ?_, ?_⟩
              · intro hns
                by_contra hev
                exact h2 ⟨hns, hev⟩
              · intro hns
                by_contra hev
                exact h3 ⟨hns, hev⟩
  · rintro ⟨hc, ns, ev, hev, hns, hi3, hhub⟩
    have hcolon : ':' ∉ ns := by
      simp only [nsCatalog, List.mem_cons, List.not_mem_nil, or_false] at hns
      rcases hns with h | h | h
      · subst h; decide
      · subst h; decide
      · subst h; decide
    unfold listen
    rw [hev, splitOnce_append ns ev hcolon]
    dsimp only
    rw [if_neg (not_not.mpr hns)]
    rw [if_neg (by rintro ⟨hn, he⟩; exact he (hi3 hn))]
    rw [if_neg (by rintro ⟨hn, he⟩; exact he (hhub hn))]
    rw [if_neg (by rw [hc]; simp)]

theorem le32_length (n : Nat) : (le32 n).length = 4 := rfl

theorem unle32_le32 (n : Nat) (h : n < 2 ^ 32) : unle32 (le32 n) = n := by
  simp only [le32, unle32]
  omega

theorem packType_land_mask (t : Nat) (ev : Bool) (ht : t < 2 ^ 31) :
    packType t ev &&& (2 ^ 31 - 1) = t := by
  cases ev with
  | false => exact Nat.and_pow_two_sub_one_of_lt_two_pow ht
  | true =>
    show (t ||| 2 ^ 31) &&& (2 ^ 31 - 1) = t
    apply Nat.eq_of_testBit_eq
    intro i
    rw [Nat.testBit_land, Nat.testBit_lor, Nat.testBit_two_pow_sub_one]
    rcases Nat.lt_trichotomy i 31 with h | h | h
    · rw [Nat.testBit_two_pow_of_ne (by omega)]
      simp [h]
    · subst h
      rw [Nat.testBit_eq_false_of_lt ht]
      simp
    · have hn : ¬ (i < 31) := by omega
      rw [Nat.testBit_two_pow_of_ne (by omega),
          Nat.testBit_eq_false_of_lt (lt_of_lt_of_le ht (Nat.pow_le_pow_right (by norm_num) (by omega)))]
      simp [hn]

theorem packType_land_flag (t : Nat) (ev : Bool) (ht : t < 2 ^ 31) :
    ((packType t ev &&& 2 ^ 31) != 0) = ev := by
  cases ev with
  | false =>
    have h0 : t &&& 2 ^ 31 = 0 := by
      apply Nat.eq_of_testBit_eq
      intro i
      rw [Nat.testBit_land, Nat.zero_testBit]
      rcases eq_or_ne i 31 with h | h
      · subst h; rw [Nat.testBit_eq_false_of_lt ht]; simp
      · rw [Nat.testBit_two_pow_of_ne (Ne.symm h)]; simp
    show ((t &&& 2 ^ 31) != 0) = false
    rw [h0]
    rfl
  | true =>
    have hne : ((t ||| 2 ^ 31) &&& 2 ^ 31) ≠ 0 := by
      intro h0
      have h1 := congrArg (fun n => Nat.testBit n 31) h0
      simp only [Nat.testBit_land, Nat.testBit_lor, Nat.testBit_two_pow_self, Nat.zero_testBit,
        Bool.or_true, Bool.and_true] at h1
      exact absurd h1 (by simp)
    show (((t ||| 2 ^ 31) &&& 2 ^ 31) != 0) = true
    simp only [bne_iff_ne, ne_eq]
    exact hne

theorem packType_lt (t : Nat) (ev : Bool) (ht : t < 2 ^ 31) : packType t ev < 2 ^ 32 := by
  cases ev with
  | false => exact lt_trans ht (by norm_num)
  | true =>
    show t ||| 2 ^ 31 < 2 ^ 32
    have heq : t ||| 2 ^ 31 = 2 ^ 31 + t := by
      apply Nat.eq_of_testBit_eq
      intro i
      rw [Nat.testBit_lor]
      rcases Nat.lt_trichotomy i 31 with h | h | h
      · rw [Nat.testBit_two_pow_of_ne (by omega), Nat.testBit_two_pow_add_gt h]
        simp
      · subst h
        rw [Nat.testBit_two_pow_self, Nat.testBit_two_pow_add_eq, Nat.testBit_eq_false_of_lt ht]
        simp
      · rw [Nat.testBit_two_pow_of_ne (by omega),
            Nat.testBit_eq_false_of_lt (lt_of_lt_of_le ht (Nat.pow_le_pow_right (by norm_num) (by omega))),
            Nat.testBit_eq_false_of_lt (show 2 ^ 31 + t < 2 ^ i from
              lt_of_lt_of_le (show 2 ^ 31 + t < 2 ^ 32 by omega)
                (Nat.pow_le_pow_right (by norm_num) (by omega)))]
        simp
    omega

/-- Decoding a well-formed frame recovers the type index, event flag and
body, for any 6 leading bytes whatsoever in place of the magic. -/
theorem decodeFrame_append (m : List Nat) (t : Nat) (ev : Bool) (body : List Nat)
    (hm : m.length = 6) (ht : t < 2 ^ 31) (hlen : body.length < 2 ^ 32) :
    decodeFrame (m ++ (le32 body.length ++ (le32 (packType t ev) ++ body))) =
      some (t, ev, body) := by
  have hdrop6 : (m ++ (le32 body.length ++ (le32 (packType t ev) ++ body))).drop 6 =
      le32 body.length ++ (le32 (packType t ev) ++ body) := by
    rw [← hm]; exact List.drop_left m _
  have hdrop10 : (m ++ (le32 body.length ++ (le32 (packType t ev) ++ body))).drop 10 =
      le32 (packType t ev) ++ body := by
    rw [show (10 : Nat) = 6 + 4 from rfl, ← List.drop_drop, hdrop6]
    exact List.drop_left' (le32_length _)
  have hdrop14 : (m ++ (le32 body.length ++ (le32 (packType t ev) ++ body))).drop 14 =
      body := by
    rw [show (14 : Nat) = 10 + 4 from rfl, ← List.drop_drop, hdrop10]
    exact List.drop_left' (le32_length _)
  have htake6 : ((m ++ (le32 body.length ++ (le32 (packType t ev) ++ body))).drop 6).take 4 =
      le32 body.length := by
    rw [hdrop6]; exact List.take_left' (le32_length _)
  have htake10 : ((m ++ (le32 body.length ++ (le32 (packType t ev) ++ body))).drop 10).take 4 =
      le32 (packType t ev) := by
    rw [hdrop10]; exact List.take_left' (le32_length _)
  have hlength : (m ++ (le32 body.length ++ (le32 (packType t ev) ++ body))).length =
      14 + body.length := by
    simp [hm, le32_length]
    omega
  unfold decodeFrame
  simp only [HEADER_SIZE]
  rw [hdrop14, htake6, htake10, hlength, unle32_le32 body.length hlen,
      unle32_le32 (packType t ev) (packType_lt t ev ht)]
  rw [if_neg (by omega), if_neg (by omega)]
  rw [packType_land_mask t ev ht, packType_land_flag t ev ht, List.take_length]

/-- Claim C2: for every frame built by the encoder from a valid type
index, event flag, and a payload that the JSON layer round-trips
(`loads (dumps p) = some p`, the meaning of "JSON-serializable"), decoding
the frame yields back exactly the same type index, event flag and
payload. -/
theorem frame_codec_roundtrip {P : Type} (dumps : P → List Nat) (loads : List Nat → Option P)
    (t : Nat) (ev : Bool) (p : P)
    (ht : t < 2 ^ 31) (hlen : (dumps p).length < 2 ^ 32)
    (hjson : loads (dumps p) = some p) :
    decodeMessage loads (encodeMessage dumps t ev p) = some (t, ev, p) := by
  unfold decodeMessage encodeMessage encodeFrame
  rw [decodeFrame_append MAGIC t ev (dumps p) rfl ht hlen]
  simp [hjson]

/-- Claim C2 witness: the round-trip at a concrete frame, instantiating
the JSON layer with the identity codec on bodies. -/
theorem frame_codec_roundtrip_witness :
    decodeMessage some (encodeMessage id 2 true [91, 93]) = some (2, true, ([91, 93] : List Nat)) :=
  frame_codec_roundtrip id some 2 true [91, 93] (by decide) (by decide) rfl

/-- Claim C5 counterexample: a received frame whose 6 leading bytes are
`XXXXXX` — not the magic `i3-ipc` — is decoded successfully (as type 0,
non-event, body bytes 123, 125) instead of failing: `_recv` never checks
the magic. -/
theorem decode_bad_magic_succeeds :
    (([88, 88, 88, 88, 88, 88, 2, 0, 0, 0, 0, 0, 0, 0, 123, 125] : List Nat).take 6 ≠ MAGIC) ∧
    decodeFrame [88, 88, 88, 88, 88, 88, 2, 0, 0, 0, 0, 0, 0, 0, 123, 125] =
      some (0, false, [123, 125]) := by
  decide

/-- Claim C5 (amended): header decoding does not validate the 6 magic
bytes; a frame whose magic mismatches the fixed constant is decoded
exactly as a well-formed frame would be, with no error raised. -/
theorem decode_ignores_magic (m : List Nat) (t : Nat) (ev : Bool) (body : List Nat)
    (hm : m.length = 6) (ht : t < 2 ^ 31) (hlen : body.length < 2 ^ 32) :
    decodeFrame (m ++ (le32 body.length ++ (le32 (packType t ev) ++ body))) =
      some (t, ev, body) :=
  decodeFrame_append m t ev body hm ht hlen

/-- Claim C5 (amended) witness: a concrete frame with magic `000000`. -/
theorem decode_ignores_magic_witness :
    decodeFrame ([0, 0, 0, 0, 0, 0] ++
        (le32 ([1, 2] : List Nat).length ++ (le32 (packType 3 true) ++ [1, 2]))) =
      some (3, true, ([1, 2] : List Nat)) :=
  decode_ignores_magic [0, 0, 0, 0, 0, 0] 3 true [1, 2] rfl (by decide) (by decide)

theorem dictLookup_nil (k : String) : dictLookup ([] : List (String × V)) k = none := rfl

theorem dictLookup_cons (k1 : String) (v1 : V) (rest : List (String × V)) (k : String) :
    dictLookup ((k1, v1) :: rest) k = if k1 = k then some v1 else dictLookup rest k := rfl

theorem dictSet_nil (k : String) (v : V) : dictSet ([] : List (String × V)) k v = [(k, v)] := rfl

theorem dictSet_cons (k1 : String) (v1 : V) (rest : List (String × V)) (k : String) (v : V) :
    dictSet ((k1, v1) :: rest) k v =
      if k1 = k then (k, v) :: rest else (k1, v1) :: dictSet rest k v := rfl

theorem dictLookup_dictSet_self (d : List (String × V)) (k : String) (v : V) :
    dictLookup (dictSet d k v) k = some v := by
  induction d with
  | nil =>
    rw [dictSet_nil, dictLookup_cons, if_pos rfl]
  | cons kv rest ih =>
    obtain ⟨k1, v1⟩ := kv
    by_cases h : k1 = k
    · rw [dictSet_cons, if_pos h, dictLookup_cons, if_pos rfl]
    · rw [dictSet_cons, if_neg h, dictLookup_cons, if_neg h, ih]

theorem dictLookup_dictSet_ne (d : List (String × V)) (k : String) (v : V) (q : String)
    (h : q ≠ k) : dictLookup (dictSet d k v) q = dictLookup d q := by
  induction d with
  | nil =>
    rw [dictSet_nil, dictLookup_cons, if_neg (Ne.symm h), dictLookup_nil]
  | cons kv rest ih =>
    obtain ⟨k1, v1⟩ := kv
    by_cases h1 : k1 = k
    · subst h1
      rw [dictSet_cons, if_pos rfl, dictLookup_cons, dictLookup_cons,
          if_neg (Ne.symm h), if_neg (Ne.symm h)]
    · rw [dictSet_cons, if_neg h1, dictLookup_cons, dictLookup_cons]
      by_cases h2 : k1 = q
      · rw [if_pos h2, if_pos h2]
      · rw [if_neg h2, if_neg h2, ih]

theorem dictUpdate_nil (d : List (String × V)) : dictUpdate d [] = d := rfl

theorem dictUpdate_cons (d : List (String × V)) (k : String) (v : V)
    (rest : List (String × V)) :
    dictUpdate d ((k, v) :: rest) = dictUpdate (dictSet d k v) rest := rfl

/-- Assigning a key its current value leaves the dict unchanged. -/
theorem dictSet_of_lookup (d : List (String × V)) (k : String) (v : V)
    (h : dictLookup d k = some v) : dictSet d k v = d := by
  induction d with
  | nil =>
    rw [dictLookup_nil] at h
    exact absurd h (by simp)
  | cons kv rest ih =>
    obtain ⟨k1, v1⟩ := kv
    rw [dictLookup_cons] at h
    by_cases h1 : k1 = k
    · subst h1
      rw [if_pos rfl] at h
      have hv := Option.some.inj h
      rw [dictSet_cons, if_pos rfl, hv]
    · rw [if_neg h1] at h
      rw [dictSet_cons, if_neg h1, ih h]

/-- Updating with entries whose values the dict already holds is the
identity. -/
theorem dictUpdate_of_lookup (item d : List (String × V))
    (h : ∀ kv ∈ item, dictLookup d kv.1 = some kv.2) : dictUpdate d item = d := by
  induction item generalizing d with
  | nil => rfl
  | cons kv rest ih =>
    obtain ⟨k, v⟩ := kv
    rw [dictUpdate_cons, dictSet_of_lookup d k v (h (k, v) (List.mem_cons_self _ _))]
    exact ih d fun kv2 h2 => h kv2 (List.mem_cons_of_mem _ h2)

/-- In a dict with no duplicate keys, membership determines lookup. -/
theorem dictLookup_of_mem_nodup (item : List (String × V)) (k : String) (v : V)
    (hmem : (k, v) ∈ item) (hnd : (dictKeys item).Nodup) : dictLookup item k = some v := by
  induction item with
  | nil => exact absurd hmem (List.not_mem_nil _)
  | cons kv rest ih =>
    obtain ⟨k1, v1⟩ := kv
    have hk : k1 ∉ dictKeys rest := by
      simp only [dictKeys, List.map_cons, List.nodup_cons] at hnd
      exact hnd.1
    have hrest : (dictKeys rest).Nodup := by
      simp only [dictKeys, List.map_cons, List.nodup_cons] at hnd
      exact hnd.2
    rcases List.mem_cons.mp hmem with heq | hmem2
    · obtain ⟨hk1, hv1⟩ : k = k1 ∧ v = v1 := by simpa using heq
      rw [dictLookup_cons, if_pos hk1.symm, hv1]
    · have hkmem : k ∈ dictKeys rest := List.mem_map_of_mem Prod.fst hmem2
      have hk1 : k1 ≠ k := fun hh => hk (hh ▸ hkmem)
      rw [dictLookup_cons, if_neg hk1, ih hmem2 hrest]

theorem dictLookup_dictUpdate_of_not_mem (d item : List (String × V)) (k : String)
    (h : k ∉ dictKeys item) :
    dictLookup (dictUpdate d item) k = dictLookup d k := by
  induction item generalizing d with
  | nil => simp [dictUpdate_nil]
  | cons kv rest ih =>
    obtain ⟨k1, v1⟩ := kv
    have hk1 : k1 ≠ k := by
      intro hh
      exact h (hh ▸ List.mem_cons_self k1 (dictKeys rest))
    have hrest : k ∉ dictKeys rest := fun hh => h (List.mem_cons_of_mem k1 hh)
    rw [dictUpdate_cons, ih (dictSet d k1 v1) hrest,
        dictLookup_dictSet_ne d k1 v1 k (Ne.symm hk1)]

theorem dictLookup_dictUpdate_of_mem (d item : List (String × V)) (k : String) (v : V)
    (hnd : (dictKeys item).Nodup) (h : dictLookup item k = some v) :
    dictLookup (dictUpdate d item) k = some v := by
  induction item generalizing d with
  | nil => rw [dictLookup_nil] at h; exact absurd h (by simp)
  | cons kv rest ih =>
    obtain ⟨k1, v1⟩ := kv
    have hk : k1 ∉ dictKeys rest := by
      simp only [dictKeys, List.map_cons, List.nodup_cons] at hnd
      exact hnd.1
    have hrest : (dictKeys rest).Nodup := by
      simp only [dictKeys, List.map_cons, List.nodup_cons] at hnd
      exact hnd.2
    rw [dictLookup_cons] at h
    by_cases h1 : k1 = k
    · subst h1
      rw [if_pos rfl] at h
      rw [dictUpdate_cons, dictLookup_dictUpdate_of_not_mem (dictSet d k1 v1) rest k1 hk,
          dictLookup_dictSet_self, h]
    · rw [if_neg h1] at h
      rw [dictUpdate_cons, ih (dictSet d k1 v1) hrest h]

/-- `d.update(item); d.update(item)` equals a single update, for an item
with unique keys. -/
theorem dictUpdate_idem (d item : List (String × V)) (h : (dictKeys item).Nodup) :
    dictUpdate (dictUpdate d item) item = dictUpdate d item :=
  dictUpdate_of_lookup item (dictUpdate d item) fun kv hkv => by
    obtain ⟨k, v⟩ := kv
    exact dictLookup_dictUpdate_of_mem d item k v h (dictLookup_of_mem_nodup item k v hkv h)

/-- `item.update(item) = item`, for an item with unique keys. -/
theorem dictUpdate_self (item : List (String × V)) (h : (dictKeys item).Nodup) :
    dictUpdate item item = item :=
  dictUpdate_of_lookup item item fun kv hkv => by
    obtain ⟨k, v⟩ := kv
    exact dictLookup_of_mem_nodup item k v hkv h

/-- The scan succeeds past a match-free, well-named prefix and overwrites
the first matching element in place. -/
theorem mergeScan_found (pre : List (List (String × V))) (obj : List (String × V))
    (post : List (List (String × V))) (item : List (String × V)) (nm : V)
    (hpw : ∀ o ∈ pre, (dictLookup o "name").isSome)
    (hpre : ∀ o ∈ pre, dictLookup o "name" ≠ some nm)
    (hobj : dictLookup obj "name" = some nm) :
    mergeScan (pre ++ obj :: post) item nm = some (pre ++ dictUpdate obj item :: post, true) := by
  induction pre with
  | nil => simp [mergeScan, hobj]
  | cons o pre2 ih =>
    obtain ⟨n, hn⟩ := Option.isSome_iff_exists.mp (hpw o (List.mem_cons_self o pre2))
    have hne : n ≠ nm := by
      intro hh
      exact hpre o (List.mem_cons_self o pre2) (hh ▸ hn)
    rw [List.cons_append]
    simp only [mergeScan, hn, if_neg hne]
    rw [ih (fun o2 h2 => hpw o2 (List.mem_cons_of_mem o h2))
        (fun o2 h2 => hpre o2 (List.mem_cons_of_mem o h2))]
    rfl

/-- The scan of a match-free, well-named array returns it unchanged with
the `updated` flag clear. -/
theorem mergeScan_not_found (arr : List (List (String × V))) (item : List (String × V)) (nm : V)
    (hw : ∀ o ∈ arr, (dictLookup o "name").isSome)
    (hnm : ∀ o ∈ arr, dictLookup o "name" ≠ some nm) :
    mergeScan arr item nm = some (arr, false) := by
  induction arr with
  | nil => rfl
  | cons o rest ih =>
    obtain ⟨n, hn⟩ := Option.isSome_iff_exists.mp (hw o (List.mem_cons_self o rest))
    have hne : n ≠ nm := fun hh => hnm o (List.mem_cons_self o rest) (hh ▸ hn)
    simp only [mergeScan, hn, if_neg hne]
    rw [ih (fun o2 h2 => hw o2 (List.mem_cons_of_mem o h2))
        (fun o2 h2 => hnm o2 (List.mem_cons_of_mem o h2))]
    rfl

/-- Every array either has no element named `nm`, or decomposes at the
first such element. -/
theorem exists_first_match (arr : List (List (String × V))) (nm : V) :
    (∀ o ∈ arr, dictLookup o "name" ≠ some nm) ∨
    ∃ pre obj post, arr = pre ++ obj :: post ∧
      (∀ o ∈ pre, dictLookup o "name" ≠ some nm) ∧ dictLookup obj "name" = some nm := by
  induction arr with
  | nil => left; simp
  | cons o rest ih =>
    by_cases h : dictLookup o "name" = some nm
    · right
      exact ⟨[], o, rest, rfl, by simp, h⟩
    · rcases ih with hall | ⟨pre, obj, post, harr, hpre, hobj⟩
      · left
        intro o2 h2
        rcases List.mem_cons.mp h2 with h2 | h2
        · exact h2 ▸ h
        · exact hall o2 h2
      · right
        refine ⟨o :: pre, obj, post, by rw [harr, List.cons_append], ?_, hobj⟩
        intro o2 h2
        rcases List.mem_cons.mp h2 with h2 | h2
        · exact h2 ▸ h
        · exact hpre o2 h2

/-- Claim C3: for every status array of named items and every item with a
`'name'` field, `status_array_merge` overwrites the first element whose
name equals the item's name in place (shallow merge, new keys win),
preserving its position; if no element matches, the item is inserted as
the first element. -/
theorem status_array_merge_spec (arr : List (List (String × V))) (item : List (String × V))
    (nm : V) (hnm : dictLookup item "name" = some nm)
    (hwf : ∀ obj ∈ arr, (dictLookup obj "name").isSome) :
    (∃ pre obj post, arr = pre ++ obj :: post ∧
        (∀ o ∈ pre, dictLookup o "name" ≠ some nm) ∧
        dictLookup obj "name" = some nm ∧
        status_array_merge arr item = some (pre ++ dictUpdate obj item :: post))
    ∨ ((∀ o ∈ arr, dictLookup o "name" ≠ some nm) ∧
        status_array_merge arr item = some (item :: arr)) := by
  rcases exists_first_match arr nm with hall | ⟨pre, obj, post, harr, hpre, hobj⟩
  · right
    refine ⟨hall, ?_⟩
    unfold status_array_merge
    rw [hnm]
    dsimp only
    rw [mergeScan_not_found arr item nm hwf hall]
    rfl
  · left
    refine ⟨pre, obj, post, harr, hpre, hobj, ?_⟩
    subst harr
    unfold status_array_merge
    rw [hnm]
    dsimp only
    rw [mergeScan_found pre obj post item nm
        (fun o h => hwf o (List.mem_append_left _ h)) hpre hobj]
    rfl

/-- Claim C3 witness: merging an item of name 7 carrying key `x` into an
array holding a single item of name 7 carrying key `y`, at a concrete
input. -/
theorem status_array_merge_spec_witness :
    (∃ pre obj post, ([[("name", 7), ("y", 2)]] : List (List (String × Nat))) = pre ++ obj :: post ∧
        (∀ o ∈ pre, dictLookup o "name" ≠ some 7) ∧
        dictLookup obj "name" = some 7 ∧
        status_array_merge [[("name", 7), ("y", 2)]] [("name", 7), ("x", 1)] =
          some (pre ++ dictUpdate obj [("name", 7), ("x", 1)] :: post))
    ∨ ((∀ o ∈ ([[("name", 7), ("y", 2)]] : List (List (String × Nat))),
          dictLookup o "name" ≠ some 7) ∧
        status_array_merge [[("name", 7), ("y", 2)]] [("name", 7), ("x", 1)] =
          some ([("name", 7), ("x", 1)] :: [[("name", 7), ("y", 2)]])) :=
  status_array_merge_spec [[("name", 7), ("y", 2)]] [("name", 7), ("x", 1)] 7
    (by decide) (by decide)

/-- Claim C4: applying `status_array_merge` twice with the identical item
yields the same array as applying it once. -/
theorem status_array_merge_idem (arr : List (List (String × V))) (item : List (String × V))
    (nm : V) (hnm : dictLookup item "name" = some nm)
    (hwf : ∀ obj ∈ arr, (dictLookup obj "name").isSome)
    (hnd : (dictKeys item).Nodup) :
    (status_array_merge arr item).bind (fun a2 => status_array_merge a2 item) =
      status_array_merge arr item := by
  rcases exists_first_match arr nm with hall | ⟨pre, obj, post, harr, hpre, hobj⟩
  · have h1 : status_array_merge arr item = some (item :: arr) := by
      unfold status_array_merge
      rw [hnm]
      dsimp only
      rw [mergeScan_not_found arr item nm hwf hall]
      rfl
    rw [h1]
    show status_array_merge (item :: arr) item = some (item :: arr)
    unfold status_array_merge
    rw [hnm]
    dsimp only
    have hscan : mergeScan (item :: arr) item nm = some (dictUpdate item item :: arr, true) := by
      have h2 := mergeScan_found ([] : List (List (String × V))) item arr item nm
        (by simp) (by simp) hnm
      simpa using h2
    rw [hscan]
    simp [dictUpdate_self item hnd]
  · subst harr
    have hpw : ∀ o ∈ pre, (dictLookup o "name").isSome :=
      fun o h => hwf o (List.mem_append_left _ h)
    have h1 : status_array_merge (pre ++ obj :: post) item =
        some (pre ++ dictUpdate obj item :: post) := by
      unfold status_array_merge
      rw [hnm]
      dsimp only
      rw [mergeScan_found pre obj post item nm hpw hpre hobj]
      rfl
    rw [h1]
    show status_array_merge (pre ++ dictUpdate obj item :: post) item =
      some (pre ++ dictUpdate obj item :: post)
    unfold status_array_merge
    rw [hnm]
    dsimp only
    have hobj2 : dictLookup (dictUpdate obj item) "name" = some nm :=
      dictLookup_dictUpdate_of_mem obj item "name" nm hnd hnm
    rw [mergeScan_found pre (dictUpdate obj item) post item nm hpw hpre hobj2]
    simp [dictUpdate_idem obj item hnd]

/-- Claim C4 witness: the double merge at a concrete input. -/
theorem status_array_merge_idem_witness :
    (status_array_merge [[("name", 7), ("y", 2)]] [("name", 7), ("x", 1)]).bind
        (fun a2 => status_array_merge a2 [("name", (7 : Nat)), ("x", 1)]) =
      status_array_merge [[("name", 7), ("y", 2)]] [("name", 7), ("x", 1)] :=
  status_array_merge_idem [[("name", 7), ("y", 2)]] [("name", 7), ("x", 1)] 7
    (by decide) (by decide) (by decide)

theorem connInv_init : ConnInv initConn := ⟨rfl, rfl, rfl⟩

theorem connInv_step (s s2 : ConnState) (hstep : ConnStep s s2) (ih : ConnInv s) :
    ConnInv s2 := by
  obtain ⟨h1, h2, h3⟩ := ih
  cases hstep with
  | start t h => exact ⟨h1, h2, h3⟩
  | enqueue t h hs =>
    refine ⟨h1, ?_, h3⟩
    show s.enqueueTrace ++ [t] = s.wakeTrace ++ (s.sendQueue ++ [t])
    rw [h2, List.append_assoc]
  | send t h hs =>
    refine ⟨?_, h2, ?_⟩
    · show s.wire ++ [t] = slotWire (some (t, false))
      rw [h1, hs]
      rfl
    · show s.sendTrace ++ [t] = s.deliverTrace ++ slotTask (some (t, false))
      rw [h3, hs]
      show s.deliverTrace ++ slotTask none ++ [t] = s.deliverTrace ++ slotTask (some (t, false))
      simp [slotTask]
  | reply t h =>
    refine ⟨?_, h2, ?_⟩
    · show s.wire.drop 1 = slotWire (some (t, true))
      rw [h1, h]
      rfl
    · show s.sendTrace = s.deliverTrace ++ slotTask (some (t, true))
      rw [h3, h]
      rfl
  | finish t h hq =>
    refine ⟨?_, ?_, ?_⟩
    · show s.wire = slotWire none
      rw [h1, h]
      rfl
    · show s.enqueueTrace = (s.wakeTrace ++ s.sendQueue.take 1) ++ s.sendQueue.drop 1
      rw [h2, List.append_assoc, List.take_append_drop]
    · show s.sendTrace = (s.deliverTrace ++ [t]) ++ slotTask none
      rw [h3, h]
      simp [slotTask]

theorem connInv_of_reachable (s : ConnState) (h : ConnReachable s) : ConnInv s := by
  induction h with
  | init => exact connInv_init
  | step hr hstep ih => exact connInv_step _ _ hstep ih

/-- Claim C1: in every reachable state of the `_send` protocol, at most
one request is outstanding on the wire; waiters enqueued into
`_send_queue` are woken in exactly their enqueue (FIFO) order — the wake
trace extended by the queue contents reproduces the enqueue trace — and
replies are delivered to callers in exactly the order their requests were
accepted for send — the delivery trace extended by the slot's owner
reproduces the send trace. -/
theorem connection_send_fifo (s : ConnState) (h : ConnReachable s) :
    s.wire.length ≤ 1 ∧
    s.enqueueTrace = s.wakeTrace ++ s.sendQueue ∧
    s.sendTrace = s.deliverTrace ++ slotTask s.slot := by
  obtain ⟨h1, h2, h3⟩ := connInv_of_reachable s h
  refine ⟨?_, h2, h3⟩
  rw [h1]
  cases hs : s.slot with
  | none => simp [slotWire]
  | some p =>
    obtain ⟨t, b⟩ := p
    cases b <;> simp [slotWire]

/-- Claim C1 witness: the state reached by starting task 0 and letting it
send its request. -/
theorem connection_send_fifo_witness :
    (let s1 : ConnState := { initConn with tasks := Function.update initConn.tasks 0 TaskPhase.running };
     let s2 : ConnState := { s1 with tasks := Function.update s1.tasks 0 TaskPhase.awaitingReply,
                                     slot := some (0, false), wire := s1.wire ++ [0],
                                     sendTrace := s1.sendTrace ++ [0] };
     s2.wire.length ≤ 1 ∧ s2.enqueueTrace = s2.wakeTrace ++ s2.sendQueue ∧
       s2.sendTrace = s2.deliverTrace ++ slotTask s2.slot) :=
  connection_send_fifo _ (ConnReachable.step (ConnReachable.step ConnReachable.init
    (ConnStep.start initConn 0 rfl))
    (ConnStep.send _ 0 (by simp [Function.update]) rfl))

theorem closeHub_shutdownDispatches (s : HubState) :
    (closeHub s).shutdownDispatches = s.shutdownDispatches := by
  unfold closeHub
  by_cases h : s.closed <;> simp [h]

theorem closeHub_shuttingDown (s : HubState) :
    (closeHub s).shuttingDown = s.shuttingDown := by
  unfold closeHub
  by_cases h : s.closed <;> simp [h]

theorem hubDispatchShutdown_inv (s : HubState) (arg : List Char)
    (h : s.shutdownDispatches.length ≤ if s.shuttingDown then 1 else 0) :
    (hubDispatchShutdown s arg).shutdownDispatches.length ≤
      if (hubDispatchShutdown s arg).shuttingDown then 1 else 0 := by
  unfold hubDispatchShutdown
  by_cases hsd : s.shuttingDown
  · rw [if_pos hsd]
    exact h
  · rw [if_neg hsd]
    rw [eq_false_of_ne_true hsd] at h
    simp at h
    simp [h]

theorem hubInv_apply (s : HubState) (op : HubOp)
    (h : s.shutdownDispatches.length ≤ if s.shuttingDown then 1 else 0) :
    (applyHubOp s op).shutdownDispatches.length ≤
      if (applyHubOp s op).shuttingDown then 1 else 0 := by
  cases op with
  | recvEvent e p =>
    show (handleHubEvent s e p).shutdownDispatches.length ≤
      if (handleHubEvent s e p).shuttingDown then 1 else 0
    unfold handleHubEvent
    by_cases hc : e = "shutdown".data ∨ e = "eof".data
    · rw [if_pos hc, closeHub_shutdownDispatches, closeHub_shuttingDown]
      exact hubDispatchShutdown_inv s _ h
    · rw [if_neg hc]
      exact h
  | closeOp =>
    show (closeHub s).shutdownDispatches.length ≤ if (closeHub s).shuttingDown then 1 else 0
    rw [closeHub_shutdownDispatches, closeHub_shuttingDown]
    exact h
  | finalShutdown =>
    exact hubDispatchShutdown_inv s _ h

theorem hubInv_foldl (ops : List HubOp) :
    ∀ s : HubState, s.shutdownDispatches.length ≤ (if s.shuttingDown then 1 else 0) →
      (List.foldl applyHubOp s ops).shutdownDispatches.length ≤
        if (List.foldl applyHubOp s ops).shuttingDown then 1 else 0 := by
  induction ops with
  | nil => intro s h; exact h
  | cons op rest ih =>
    intro s h
    exact ih (applyHubOp s op) (hubInv_apply s op h)

/-- Claim C6: across every sequence of shutdown-relevant operations on a
Hub, the `i3::shutdown` lifecycle event is dispatched at most once (so a
second trigger — a peer EOF racing an explicit close, or `run`'s final
dispatch — cannot dispatch it again); receiving the EOF event while not
yet shutting down dispatches it with argument `"eof"`; and `close()` on
an already-closed Hub is a no-op. -/
theorem hub_shutdown_once :
    (∀ ops : List HubOp,
      ((List.foldl applyHubOp initHub ops).shutdownDispatches).length ≤ 1) ∧
    (∀ s : HubState, s.shuttingDown = false →
      (applyHubOp s (HubOp.recvEvent ("eof".data) none)).shutdownDispatches =
        s.shutdownDispatches ++ ["eof".data]) ∧
    (∀ s : HubState, s.closed = true → closeHub s = s) := by
  refine ⟨?_, ?_, ?_⟩
  · intro ops
    have h := hubInv_foldl ops initHub (by simp [initHub])
    have h2 : (if (List.foldl applyHubOp initHub ops).shuttingDown then 1 else 0) ≤ 1 := by
      by_cases hb : (List.foldl applyHubOp initHub ops).shuttingDown <;> simp [hb]
    exact le_trans h h2
  · intro s h
    show (handleHubEvent s ("eof".data) none).shutdownDispatches = _
    unfold handleHubEvent
    rw [if_pos (Or.inr rfl), closeHub_shutdownDispatches]
    unfold hubDispatchShutdown
    rw [h]
    simp [Option.getD]
  · intro s h
    unfold closeHub
    rw [if_pos h]

/-- Claim C6 witness: an EOF racing two explicit closes and the final
shutdown dispatch; the EOF dispatch at a concrete not-yet-shutting-down
state; a close of a concrete closed state. -/
theorem hub_shutdown_once_witness :
    ((List.foldl applyHubOp initHub
        [HubOp.recvEvent ("eof".data) none, HubOp.closeOp, HubOp.closeOp,
         HubOp.finalShutdown]).shutdownDispatches).length ≤ 1 ∧
    (applyHubOp initHub (HubOp.recvEvent ("eof".data) none)).shutdownDispatches =
      initHub.shutdownDispatches ++ ["eof".data] ∧
    closeHub { shuttingDown := true, closed := true, shutdownDispatches := ["eof".data],
               closeEffects := 1 } =
      { shuttingDown := true, closed := true, shutdownDispatches := ["eof".data],
        closeEffects := 1 } :=
  ⟨hub_shutdown_once.1 _, hub_shutdown_once.2.1 initHub rfl, hub_shutdown_once.2.2 _ rfl⟩

/-- Claim C7 counterexample: two handlers registered for one event, the
first raising `"boom"`: only one of the two is invoked and the exception
escapes the event's dispatch — the exception does abort dispatch to the
other registered handler, refuting the claimed independent scheduling and
error isolation. -/
theorem dispatch_event_error_blocks :
    dispatch_event [some "boom", (none : Option String)] = (1, some "boom") ∧
    (dispatch_event [some "boom", (none : Option String)]).1 ≠ 2 := by
  decide

/-- Claim C7 (amended): `_dispatch_event` awaits the handlers of an event
sequentially, in registration order, within one task: the number of
handlers invoked is the length of the successful prefix plus one for the
first raising handler (all of them when none raises), and the first
exception propagates out, so the handlers after it are not invoked. -/
theorem dispatch_event_serial {E : Type} (handlers : List (Option E)) :
    (dispatch_event handlers).1 =
      min ((handlers.takeWhile Option.isNone).length + 1) handlers.length ∧
    (dispatch_event handlers).2 =
      (handlers.get? (handlers.takeWhile Option.isNone).length).getD none := by
  induction handlers with
  | nil => exact ⟨by simp [dispatch_event], by simp [dispatch_event]⟩
  | cons h rest ih =>
    cases h with
    | some e =>
      refine ⟨?_, ?_⟩
      · show (1 : Nat) = _
        simp [List.takeWhile_cons, Option.isNone]
      · show some e = _
        simp [List.takeWhile_cons, Option.isNone]
    | none =>
      obtain ⟨ih1, ih2⟩ := ih
      refine ⟨?_, ?_⟩
      · show (dispatch_event rest).1 + 1 = _
        rw [ih1]
        have hlen : (rest.takeWhile Option.isNone).length ≤ rest.length :=
          List.Sublist.length_le (List.takeWhile_sublist _)
        simp only [List.takeWhile_cons, Option.isNone_none, eq_self_iff_true, if_true,
          List.length_cons]
        omega
      · show (dispatch_event rest).2 = _
        rw [ih2]
        simp [List.takeWhile_cons, Option.isNone]

theorem setInsert_mem (s : List (List Char)) (x y : List Char) :
    y ∈ setInsert s x ↔ y ∈ s ∨ y = x := by
  unfold setInsert
  by_cases h : x ∈ s
  · rw [if_pos h]
    constructor
    · exact Or.inl
    · rintro (h2 | h2)
      · exact h2
      · exact h2 ▸ h
  · rw [if_neg h]
    simp [List.mem_append]

theorem addHandlerEvents_mem (events : List (List Char)) :
    ∀ (s : List (List Char)) (ev : List Char),
      ev ∈ addHandlerEvents s events ↔
        ev ∈ s ∨ ("i3".data ++ ':' :: ':' :: ev) ∈ events := by
  induction events with
  | nil =>
    intro s ev
    simp [addHandlerEvents]
  | cons e rest ih =>
    intro s ev
    have hstep : addHandlerEvents s (e :: rest) =
        addHandlerEvents
          (match splitOnce e with
           | some (ns, ev2) => if ns = "i3".data then setInsert s ev2 else s
           | none => s) rest := rfl
    rw [hstep, ih]
    cases hsp : splitOnce e with
    | none =>
      dsimp only
      have hne : ("i3".data ++ ':' :: ':' :: ev) ≠ e := by
        intro hh
        rw [← hh, splitOnce_append ("i3".data) ev (by decide)] at hsp
        exact absurd hsp (by simp)
      rw [List.mem_cons]
      constructor
      · rintro (h2 | h2)
        · exact Or.inl h2
        · exact Or.inr (Or.inr h2)
      · rintro (h2 | h2 | h2)
        · exact Or.inl h2
        · exact absurd h2 hne
        · exact Or.inr h2
    | some p =>
      obtain ⟨ns, ev2⟩ := p
      dsimp only
      have he : e = ns ++ ':' :: ':' :: ev2 := splitOnce_sound e ns ev2 hsp
      by_cases hns : ns = "i3".data
      · subst hns
        rw [if_pos rfl, setInsert_mem]
        have hiff : ("i3".data ++ ':' :: ':' :: ev) = e ↔ ev = ev2 := by
          rw [he]
          constructor
          · intro hh
            have := List.append_cancel_left hh
            simpa using this
          · intro hh
            rw [hh]
        constructor
        · rintro ((h2 | h2) | h2)
          · exact Or.inl h2
          · exact Or.inr (List.mem_cons.mpr (Or.inl (hiff.mpr h2)))
          · exact Or.inr (List.mem_cons.mpr (Or.inr h2))
        · rintro (h2 | h2)
          · exact Or.inl (Or.inl h2)
          · rcases List.mem_cons.mp h2 with h3 | h3
            · exact Or.inl (Or.inr (hiff.mp h3))
            · exact Or.inr h3
      · rw [if_neg hns]
        have hne : ("i3".data ++ ':' :: ':' :: ev) ≠ e := by
          intro hh
          rw [← hh, splitOnce_append ("i3".data) ev (by decide)] at hsp
          have : "i3".data = ns := by
            have h4 := Option.some.inj hsp
            exact congrArg Prod.fst h4
          exact hns this.symm
        rw [List.mem_cons]
        constructor
        · rintro (h2 | h2)
          · exact Or.inl h2
          · exact Or.inr (Or.inr h2)
        · rintro (h2 | h2 | h2)
          · exact Or.inl h2
          · exact absurd h2 hne
          · exact Or.inr h2

theorem handlersFold_mem (handlers : List (List (List Char))) :
    ∀ (s : List (List Char)) (ev : List Char),
      ev ∈ handlers.foldl addHandlerEvents s ↔
        ev ∈ s ∨ ∃ h ∈ handlers, ("i3".data ++ ':' :: ':' :: ev) ∈ h := by
  induction handlers with
  | nil =>
    intro s ev
    simp
  | cons hh rest ih =>
    intro s ev
    show ev ∈ rest.foldl addHandlerEvents (addHandlerEvents s hh) ↔ _
    rw [ih, addHandlerEvents_mem]
    constructor
    · rintro ((h2 | h2) | ⟨x, hx, hx2⟩)
      · exact Or.inl h2
      · exact Or.inr ⟨hh, List.mem_cons_self hh rest, h2⟩
      · exact Or.inr ⟨x, List.mem_cons_of_mem hh hx, hx2⟩
    · rintro (h2 | ⟨x, hx, hx2⟩)
      · exact Or.inl (Or.inl h2)
      · rcases List.mem_cons.mp hx with h3 | h3
        · exact Or.inl (Or.inr (h3 ▸ hx2))
        · exact Or.inr ⟨x, h3, hx2⟩

theorem registerExtension_skip_status (ras : Bool) (st : RegState) (ext : Extension)
    (h : ext.statusOnly ∧ ras = false) : registerExtension ras st ext = st := by
  unfold registerExtension
  rw [if_pos h]

theorem registerExtension_skip_dup (ras : Bool) (st : RegState) (ext : Extension)
    (h1 : ¬(ext.statusOnly ∧ ras = false)) (h2 : ext.name ∈ st.registered) :
    registerExtension ras st ext = st := by
  unfold registerExtension
  rw [if_neg h1, if_pos h2]

theorem registerExtension_add (ras : Bool) (st : RegState) (ext : Extension)
    (h1 : ¬(ext.statusOnly ∧ ras = false)) (h2 : ext.name ∉ st.registered) :
    registerExtension ras st ext =
      { registered := st.registered ++ [ext.name],
        regs := st.regs ++ [ext],
        subscribedI3 := ext.handlers.foldl addHandlerEvents st.subscribedI3 } := by
  unfold registerExtension
  rw [if_neg h1, if_neg h2]

/-- The registration fold appends some list of newly registered
extensions, and the collected i3 event set is the old one plus exactly
the i3-namespaced events their handlers listen to. -/
theorem setupFold_subscribed (ras : Bool) (exts : List Extension) :
    ∀ st : RegState, ∃ newRegs : List Extension,
      (exts.foldl (registerExtension ras) st).regs = st.regs ++ newRegs ∧
      ∀ ev, ev ∈ (exts.foldl (registerExtension ras) st).subscribedI3 ↔
        ev ∈ st.subscribedI3 ∨ ∃ ext ∈ newRegs, ∃ h ∈ ext.handlers,
          ("i3".data ++ ':' :: ':' :: ev) ∈ h := by
  induction exts with
  | nil =>
    intro st
    exact ⟨[], by simp, by simp⟩
  | cons x rest ih =>
    intro st
    rw [List.foldl_cons]
    by_cases h1 : x.statusOnly ∧ ras = false
    · rw [registerExtension_skip_status ras st x h1]
      exact ih st
    · by_cases h2 : x.name ∈ st.registered
      · rw [registerExtension_skip_dup ras st x h1 h2]
        exact ih st
      · rw [registerExtension_add ras st x h1 h2]
        obtain ⟨newRegs1, hregs1, hmem1⟩ := ih
          { registered := st.registered ++ [x.name],
            regs := st.regs ++ [x],
            subscribedI3 := x.handlers.foldl addHandlerEvents st.subscribedI3 }
        refine ⟨x :: newRegs1, ?_, ?_⟩
        · rw [hregs1]
          simp
        · intro ev
          rw [hmem1 ev]
          show ev ∈ x.handlers.foldl addHandlerEvents st.subscribedI3 ∨ _ ↔ _
          rw [handlersFold_mem]
          constructor
          · rintro ((h3 | h3) | ⟨y, hy, hy2⟩)
            · exact Or.inl h3
            · exact Or.inr ⟨x, List.mem_cons_self x newRegs1, h3⟩
            · exact Or.inr ⟨y, List.mem_cons_of_mem x hy, hy2⟩
          · rintro (h3 | ⟨y, hy, hy2⟩)
            · exact Or.inl (Or.inl h3)
            · rcases List.mem_cons.mp hy with h4 | h4
              · exact Or.inl (Or.inr (h4 ▸ hy2))
              · exact Or.inr ⟨y, h4, hy2⟩

/-- Claim C8: `run` issues exactly one `subscribe` call; it is the very
first action, so it completes before the lifecycle `init` dispatch and
before the event-polling task starts (which are the final two actions, in
that order); and the subscribe call carries exactly the set of
i3-namespaced event names listened to by the handlers of the registered
extensions. -/
theorem run_subscribe_once_before_init (ras : Bool) (exts : List Extension) :
    ((runTrace ras exts).countP (fun a => isSubscribeAction a)) = 1 ∧
    (runTrace ras exts).head? =
      some (RunAction.subscribeCall (setupEvents ras exts).subscribedI3) ∧
    (runTrace ras exts).drop ((runTrace ras exts).length - 2) =
      [RunAction.initDispatch, RunAction.startPolling] ∧
    (∀ ev, ev ∈ (setupEvents ras exts).subscribedI3 ↔
      ∃ ext ∈ (setupEvents ras exts).regs, ∃ h ∈ ext.handlers,
        ("i3".data ++ ':' :: ':' :: ev) ∈ h) := by
  refine ⟨?_, ?_, ?_, ?_⟩
  · cases ras <;> simp [runTrace, List.countP_cons, isSubscribeAction]
  · rfl
  · cases ras <;> rfl
  · intro ev
    obtain ⟨newRegs, hregs, hmem⟩ := setupFold_subscribed ras exts
      { registered := [], regs := [], subscribedI3 := [] }
    have hsetup : setupEvents ras exts =
        List.foldl (registerExtension ras)
          { registered := [], regs := [], subscribedI3 := [] } exts := rfl
    rw [hsetup, hmem ev, hregs]
    simp

/-- Claim C9: once the API wrapper is marked shutting down, every
Connection-backed wrapper method raises instead of forwarding; and `run`
on an already-closed Hub raises the explicit "already closed" error. -/
theorem lifecycle_fail_loudly :
    (∀ m ∈ wrapperMethodNames, wrapperCall true m =
      WrapperResult.raised ("Cannot send messages when shutting down".data)) ∧
    (∀ (ras : Bool) (exts : List Extension), runHub true ras exts =
      Except.error ("This I3Hub instance was already closed".data)) :=
  ⟨fun _ _ => rfl, fun _ _ => rfl⟩

/-- Claim C9 witness: the `command` wrapper method while shutting down,
and `run` on a closed Hub with no extensions. -/
theorem lifecycle_fail_loudly_witness :
    ("command".data ∈ wrapperMethodNames) ∧
    wrapperCall true ("command".data) =
      WrapperResult.raised ("Cannot send messages when shutting down".data) ∧
    runHub true false [] = Except.error ("This I3Hub instance was already closed".data) :=
  ⟨by decide, lifecycle_fail_loudly.1 ("command".data) (by decide),
    lifecycle_fail_loudly.2 false []⟩

end I3HubModel

